import Mathlib

set_option maxRecDepth 100000

/-!
Verification development for the `cargo-check-i18n` diagnostic-translation
pipeline (`src/main.rs`).

The Rust code is shallowly embedded as follows:
* Rust `&str` / `String` values are Lean `String`s; character-level
  operations work on `String.data : List Char`.  Rust's Unicode-aware
  `char::is_whitespace` / `to_lowercase` / `char::is_alphabetic` are modelled
  by Lean's ASCII `Char.isWhitespace` / `Char.toLower` / `Char.isAlpha`;
  every input appearing in a theorem below only contains characters on which
  the two agree.
* `str::len()` (UTF-8 byte length) is `String.utf8ByteSize`; the character
  count is `String.length`.
* File-system and network effects are made explicit: the cache file is an
  `Option String` (its current content, `none` = absent), the external
  LLM endpoint is an oracle function `String → Option String` from the
  prompt to the result of `query_llm`, and the parsed configuration file is
  an `Option Config` (`none` = missing or unparsable, which the Rust code
  `unwrap`s, i.e. panics on).
-/

/-- Index of the first `'|'` of a character list: `line.find('|')` followed by
taking the byte-slice `&line[i+1..]`, i.e. the text after the first pipe
(`none` when there is no pipe). -/
def afterFirstPipe : List Char → Option (List Char)
  | [] => none
  | c :: rest => if c = '|' then some rest else afterFirstPipe rest

/-- Rust `str::contains('|')` on character lists. -/
def hasPipe : List Char → Bool
  | [] => false
  | c :: rest => c = '|' || hasPipe rest

/-- Rust `str::starts_with(pat)` on character lists. -/
def startsWithL : List Char → List Char → Bool
  | _, [] => true
  | [], _ :: _ => false
  | a :: as_, b :: bs => a = b && startsWithL as_ bs

/-- Rust `str::contains(pat)` for a substring pattern, on character lists. -/
def containsSubstring : List Char → List Char → Bool
  | [], pat => pat.isEmpty
  | c :: rest, pat => startsWithL (c :: rest) pat || containsSubstring rest pat

/-- Rust `str::trim()`: remove leading and trailing whitespace. -/
def trimL (cs : List Char) : List Char :=
  ((cs.dropWhile Char.isWhitespace).reverse.dropWhile Char.isWhitespace).reverse

/-- Does the list start with one of the code-frame markers `'-'` / `'^'`
(the check `after.trim_start().starts_with('-') || …starts_with('^')` applies
this after dropping leading whitespace)? -/
def startsMarker : List Char → Bool
  | [] => false
  | c :: _ => c = '-' || c = '^'

/-- The keyword test of the classifier:
`lower.contains("error") || lower.contains("warning") || lower.contains("note")
|| lower.contains("help")`. -/
def keywordHit (lower : List Char) : Bool :=
  containsSubstring lower "error".data || containsSubstring lower "warning".data
    || containsSubstring lower "note".data || containsSubstring lower "help".data

/-- Function `should_translate` from `src/main.rs` (lines 238–265), step for step:
trim; lower-case; exclude status-prefix lines; exclude digit-led lines that
contain a pipe; exclude a lone `"|"`; if the (raw) line contains a pipe whose
following text does not start with `'-'`/`'^'` after `trim_start`, exclude;
otherwise include iff a keyword occurs in the lower-cased trimmed line or
`15 < line.len() < 120` (UTF-8 **bytes** of the raw line) and some character
is alphabetic. -/
def should_translate (line : String) : Bool :=
  let t := trimL line.data
  let lower := t.map Char.toLower
  if startsWithL lower "compiling".data || startsWithL lower "checking".data
      || startsWithL lower "finished".data || startsWithL lower "-->".data then
    false
  else if (match t with | [] => false | c :: _ => c.isDigit) && hasPipe t then
    false
  else if t = ['|'] then
    false
  else
    let keep := keywordHit lower
      || (decide (15 < line.utf8ByteSize) && decide (line.utf8ByteSize < 120)
            && line.data.any Char.isAlpha)
    match afterFirstPipe line.data with
    | some after =>
        if startsMarker (after.dropWhile Char.isWhitespace) then keep else false
    | none => keep

/-- The classifier exactly as §4.1 of the specification words it, parameterised
by the length measure `lenOf` used in step 6 ("the line length is strictly
between 15 and 120 characters" — the spec counts characters, the code counts
UTF-8 bytes).  Steps 2–5 operate on the trimmed line `t` of step 1. -/
def spec_should_translate (lenOf : String → Nat) (line : String) : Bool :=
  let t := trimL line.data
  let lower := t.map Char.toLower
  if startsWithL lower "compiling".data || startsWithL lower "checking".data
      || startsWithL lower "finished".data || startsWithL lower "-->".data then
    false
  else if (match t with | [] => false | c :: _ => c.isDigit) && hasPipe t then
    false
  else if t = ['|'] then
    false
  else if hasPipe t
      && !startsMarker (((afterFirstPipe t).getD []).dropWhile Char.isWhitespace) then
    false
  else
    keywordHit lower
      || (decide (15 < lenOf line) && decide (lenOf line < 120)
            && line.data.any Char.isAlpha)

example : should_translate "warning: unused variable: `x`" = true := by decide
example : should_translate "  --> src/main.rs:10:5" = false := by decide
example : should_translate "10 | let x = 5;" = false := by decide
example : should_translate "help: consider removing this" = true := by decide
example : should_translate (String.mk (List.replicate 200 '1')) = false := by decide
example : should_translate "   this has sixteen!" = true := by decide
example : should_translate "12 | - foo" = false := by decide
example : should_translate "   | ^^^ an error marker here" = true := by decide
example : should_translate "a | b error" = false := by decide

/-- One conditional gate summarising the pipe check of the classifier:
`true` when the line either has no pipe or the text after its first pipe
starts (after leading whitespace) with a `'-'`/`'^'` marker. -/
def pipeGate (cs : List Char) : Bool :=
  match afterFirstPipe cs with
  | some after => startsMarker (after.dropWhile Char.isWhitespace)
  | none => true

theorem afterFirstPipe_append (xs ys : List Char) :
    afterFirstPipe (xs ++ ys)
      = (match afterFirstPipe xs with
         | some a => some (a ++ ys)
         | none => afterFirstPipe ys) := by
  induction xs with
  | nil => rfl
  | cons c rest ih =>
    by_cases hc : c = '|'
    · simp [afterFirstPipe, hc]
    · simp [afterFirstPipe, hc, ih]

theorem afterFirstPipe_none_iff (cs : List Char) :
    afterFirstPipe cs = none ↔ hasPipe cs = false := by
  induction cs with
  | nil => simp [afterFirstPipe, hasPipe]
  | cons c rest ih =>
    by_cases hc : c = '|' <;> simp [afterFirstPipe, hasPipe, hc, ih]

theorem afterFirstPipe_of_ws (xs : List Char) (h : ∀ c ∈ xs, c.isWhitespace = true) :
    afterFirstPipe xs = none := by
  induction xs with
  | nil => rfl
  | cons c rest ih =>
    have hc : c.isWhitespace = true := h c (by simp)
    have hne : ¬(c = '|') := by
      intro he
      rw [he] at hc
      exact absurd hc (by decide)
    rw [afterFirstPipe, if_neg hne]
    exact ih fun d hd => h d (List.mem_cons_of_mem _ hd)

theorem startsMarker_dropWhile_append (a suf : List Char)
    (h : ∀ c ∈ suf, c.isWhitespace = true) :
    startsMarker ((a ++ suf).dropWhile Char.isWhitespace)
      = startsMarker (a.dropWhile Char.isWhitespace) := by
  induction a with
  | nil =>
    have hnil : suf.dropWhile Char.isWhitespace = [] :=
      List.dropWhile_eq_nil_iff.mpr h
    simp [hnil]
  | cons c a' ih =>
    by_cases hc : c.isWhitespace = true
    · simp [List.dropWhile_cons, hc, ih]
    · simp [List.dropWhile_cons, hc, startsMarker]

theorem trimL_decomp (cs : List Char) :
    ∃ pre suf, (∀ c ∈ pre, c.isWhitespace = true) ∧ (∀ c ∈ suf, c.isWhitespace = true)
      ∧ cs = pre ++ (trimL cs ++ suf) := by
  refine ⟨cs.takeWhile Char.isWhitespace,
    ((cs.dropWhile Char.isWhitespace).reverse.takeWhile Char.isWhitespace).reverse,
    fun c hc => List.mem_takeWhile_imp hc,
    fun c hc => List.mem_takeWhile_imp (List.mem_reverse.mp hc), ?_⟩
  have h2 : cs.dropWhile Char.isWhitespace
      = trimL cs
        ++ ((cs.dropWhile Char.isWhitespace).reverse.takeWhile Char.isWhitespace).reverse := by
    have h3 := List.takeWhile_append_dropWhile
      (p := Char.isWhitespace) (l := (cs.dropWhile Char.isWhitespace).reverse)
    calc cs.dropWhile Char.isWhitespace
        = ((cs.dropWhile Char.isWhitespace).reverse).reverse := (List.reverse_reverse _).symm
      _ = (((cs.dropWhile Char.isWhitespace).reverse.takeWhile Char.isWhitespace)
            ++ ((cs.dropWhile Char.isWhitespace).reverse.dropWhile Char.isWhitespace)).reverse := by
            rw [h3]
      _ = _ := by
            rw [List.reverse_append]
            rfl
  have h1 : cs = cs.takeWhile Char.isWhitespace ++ cs.dropWhile Char.isWhitespace :=
    (List.takeWhile_append_dropWhile (p := Char.isWhitespace) (l := cs)).symm
  conv_lhs => rw [h1]
  exact congrArg (fun l => cs.takeWhile Char.isWhitespace ++ l) h2

theorem pipeGate_trimL (cs : List Char) : pipeGate (trimL cs) = pipeGate cs := by
  obtain ⟨pre, suf, hpre, hsuf, hcs⟩ := trimL_decomp cs
  have hpre' := afterFirstPipe_of_ws pre hpre
  have hsuf' := afterFirstPipe_of_ws suf hsuf
  conv_rhs => rw [hcs]
  unfold pipeGate
  rw [afterFirstPipe_append, hpre', afterFirstPipe_append]
  cases h : afterFirstPipe (trimL cs) <;>
    simp [h, hsuf', startsMarker_dropWhile_append _ _ hsuf]

theorem classifier_else_eq (line : String) (keep : Bool) :
    (match afterFirstPipe line.data with
     | some after =>
         if startsMarker (after.dropWhile Char.isWhitespace) then keep else false
     | none => keep)
    = (if hasPipe (trimL line.data)
          && !startsMarker
              (((afterFirstPipe (trimL line.data)).getD []).dropWhile Char.isWhitespace)
        then false else keep) := by
  have hpg := pipeGate_trimL line.data
  have hcode : (match afterFirstPipe line.data with
      | some after =>
          if startsMarker (after.dropWhile Char.isWhitespace) then keep else false
      | none => keep) = cond (pipeGate line.data) keep false := by
    unfold pipeGate
    cases h : afterFirstPipe line.data with
    | none => simp
    | some a => cases hs : startsMarker (a.dropWhile Char.isWhitespace) <;> simp [hs]
  have hspec : (if hasPipe (trimL line.data)
        && !startsMarker
            (((afterFirstPipe (trimL line.data)).getD []).dropWhile Char.isWhitespace)
      then false else keep) = cond (pipeGate (trimL line.data)) keep false := by
    unfold pipeGate
    cases hp : hasPipe (trimL line.data) with
    | false =>
      have hnone : afterFirstPipe (trimL line.data) = none :=
        (afterFirstPipe_none_iff _).mpr hp
      simp [hnone]
    | true =>
      cases h : afterFirstPipe (trimL line.data) with
      | none => exact absurd ((afterFirstPipe_none_iff _).mp h) (by simp [hp])
      | some a =>
        cases hs : startsMarker (a.dropWhile Char.isWhitespace) <;> simp [hs]
  rw [hcode, hspec, hpg]

theorem should_translate_eq_spec (line : String) :
    should_translate line = spec_should_translate String.utf8ByteSize line := by
  unfold should_translate spec_should_translate
  dsimp only
  refine if_congr Iff.rfl rfl (if_congr Iff.rfl rfl (if_congr Iff.rfl rfl ?_))
  exact classifier_else_eq line _

/-- Claim C3 counterexample: on the 41-character line consisting of `'a'`
followed by forty `'€'` signs, `should_translate` in the code answers `false`
(the line is 121 UTF-8 bytes, so `line.len() < 120` fails), while the §4.1
algorithm with the length counted in characters (41 characters, one of them
alphabetic, no keyword, no pipe, no status head) answers `true`.  So the
claim, which reads the step-6 bound as a character count, does not hold of
the code. -/
theorem C3_counterexample :
    should_translate (String.mk ('a' :: List.replicate 40 '€')) = false
      ∧ spec_should_translate String.length (String.mk ('a' :: List.replicate 40 '€'))
          = true :=
  ⟨by decide, by decide⟩

/-- Claim C3 (amended): `should_translate` returns exactly the include/exclude
verdict of the six-step algorithm of §4.1 with the step-6 line length measured
in UTF-8 bytes rather than characters, and in particular decides the literal
truth-table cases of §8 as listed there. -/
theorem C3_classifier_follows_spec :
    (∀ line, should_translate line = spec_should_translate String.utf8ByteSize line)
      ∧ should_translate "warning: unused variable: `x`" = true
      ∧ should_translate "  --> src/main.rs:10:5" = false
      ∧ should_translate "10 | let x = 5;" = false
      ∧ should_translate "help: consider removing this" = true
      ∧ should_translate (String.mk (List.replicate 200 '1')) = false :=
  ⟨should_translate_eq_spec, by decide, by decide, by decide, by decide, by decide⟩

/-!  JSON values and `extract_json_path` (`src/main.rs` lines 316–326).
`serde_json::Value` is embedded as the inductive `JValue`; numbers are
modelled as rationals (no claim below depends on them). -/

inductive JValue where
  | null
  | bool (b : Bool)
  | num (q : ℚ)
  | str (s : String)
  | arr (items : List JValue)
  | obj (fields : List (String × JValue))

/-- Rust `seg.parse::<usize>()`: an optional leading `'+'`, then at least one
ASCII digit and nothing else, with the value required to fit in a 64-bit
`usize` (otherwise the parse errors with overflow and the segment is treated
as a key). -/
def parseUsize (s : String) : Option Nat :=
  let ds := match s.data with
            | '+' :: rest => rest
            | cs => cs
  if ds.isEmpty || !ds.all Char.isDigit then none
  else
    let v := ds.foldl (fun acc c => acc * 10 + (c.toNat - 48)) 0
    if v < 2 ^ 64 then some v else none

/-- Rust `serde_json::Value::get(usize)`: index into an array, `none` on any other
shape or out of range. -/
def JValue.getIdx : JValue → Nat → Option JValue
  | .arr items, i => items.get? i
  | _, _ => none

/-- Rust `serde_json::Value::get(&str)`: look a key up in an object, `none` on any
other shape or absent key. -/
def JValue.getKey : JValue → String → Option JValue
  | .obj fields, k => (fields.find? (fun kv => kv.1 == k)).map (fun kv => kv.2)
  | _, _ => none

/-- Rust `serde_json::Value::as_str().map(str::to_string)`. -/
def JValue.asStr : JValue → Option String
  | .str s => some s
  | _ => none

/-- Rust `path.split('.')` on character lists: the list of (possibly empty)
segments between the dots. -/
def splitOnDot : List Char → List (List Char)
  | [] => [[]]
  | c :: rest =>
    if c = '.' then [] :: splitOnDot rest
    else
      match splitOnDot rest with
      | s :: ss => (c :: s) :: ss
      | [] => [[c]]

/-- The loop of `extract_json_path` over the already-split segments. -/
def extractSegs : JValue → List String → Option String
  | v, [] => v.asStr
  | v, seg :: rest =>
    match parseUsize seg with
    | some i =>
      match v.getIdx i with
      | some v2 => extractSegs v2 rest
      | none => none
    | none =>
      match v.getKey seg with
      | some v2 => extractSegs v2 rest
      | none => none

/-- Function `extract_json_path` from `src/main.rs`: walk the dot-separated path, then
read the terminal value as a string. -/
def extract_json_path (v : JValue) (path : String) : Option String :=
  extractSegs v ((splitOnDot path.data).map String.mk)

/-- The response value of the §8 extraction property as a `JValue`:
an object whose "choices" key holds a one-element array of an object with a
"message" object carrying "content": "hola". -/
def holaJson : JValue :=
  .obj [("choices", .arr [.obj [("message", .obj [("content", .str "hola")])]])]

example : extract_json_path holaJson "choices.0.message.content" = some "hola" := by decide
example : extract_json_path holaJson "choices.1.message.content" = none := by decide

/-- Claim C5: `extract_json_path` walks the dot-separated path one segment at
a time; a segment that parses as a non-negative (64-bit) integer indexes into
an array and any other segment looks a key up in an object; the walk yields
`none` whenever a step is applied to a value of the wrong shape, the index or
key is absent, or the terminal value is not a string; and on
`{"choices":[{"message":{"content":"hola"}}]}` the path
`choices.0.message.content` yields `"hola"` while `choices.1.message.content`
fails. -/
theorem C5_extract_json_path_walk :
    extract_json_path holaJson "choices.0.message.content" = some "hola"
      ∧ extract_json_path holaJson "choices.1.message.content" = none
      ∧ (∀ v : JValue, extractSegs v [] = v.asStr)
      ∧ (∀ (v : JValue) (seg : String) (rest : List String),
          extractSegs v (seg :: rest)
            = match parseUsize seg with
              | some i => (v.getIdx i).bind (fun v2 => extractSegs v2 rest)
              | none => (v.getKey seg).bind (fun v2 => extractSegs v2 rest))
      ∧ (∀ (v : JValue) (i : Nat) (v2 : JValue),
          v.getIdx i = some v2 ↔ ∃ items, v = .arr items ∧ items.get? i = some v2)
      ∧ (∀ (v : JValue) (k : String) (v2 : JValue),
          v.getKey k = some v2
            ↔ ∃ fields, v = .obj fields
                ∧ (fields.find? (fun kv => kv.1 == k)).map (fun kv => kv.2) = some v2)
      ∧ (∀ v : JValue, v.asStr = none ↔ ∀ s, v ≠ .str s) := by
  refine ⟨by decide, by decide, fun v => rfl, ?_, ?_, ?_, ?_⟩
  · intro v seg rest
    cases h : parseUsize seg with
    | some i =>
      cases hg : v.getIdx i <;> simp [extractSegs, h, hg]
    | none =>
      cases hg : v.getKey seg <;> simp [extractSegs, h, hg]
  · intro v i v2
    cases v <;> simp [JValue.getIdx]
  · intro v k v2
    cases v <;> simp [JValue.getKey]
  · intro v
    cases v <;> simp [JValue.asStr]

/-!  Cache persistence (`src/main.rs` lines 328–337).  `save_cache` writes
`serde_json::to_string_pretty` of the string-to-string map; `load_cache`
reads the file and parses it with `serde_json::from_str`, falling back to the
empty map when the file is absent or unparsable.  The map is embedded as an
association list (iteration order made explicit); the serde pretty printer
and the relevant fragment of its parser are modelled below character for
character: two-space indentation, `", "`-free `":  "`-free layout
`\x7b\n  "k": "v",\n  "k2": "v2"\n\x7d`, strings escaped exactly as serde
escapes them (`\"`, `\\`, `\b`, `\f`, `\n`, `\r`, `\t`, and `\u00XX` for the
remaining control characters, everything else verbatim). -/

/-- Lower-case hexadecimal digit for `n < 16`. -/
def hexDigChar (n : Nat) : Char :=
  if n < 10 then Char.ofNat (48 + n) else Char.ofNat (87 + n)

/-- serde's escaping of one character inside a JSON string literal. -/
def escapeChar (c : Char) : List Char :=
  if c = '"' then ['\\', '"']
  else if c = '\\' then ['\\', '\\']
  else if c = '\x08' then ['\\', 'b']
  else if c = '\x0c' then ['\\', 'f']
  else if c = '\n' then ['\\', 'n']
  else if c = '\r' then ['\\', 'r']
  else if c = '\t' then ['\\', 't']
  else if c.toNat < 32 then
    ['\\', 'u', '0', '0', hexDigChar (c.toNat / 16), hexDigChar (c.toNat % 16)]
  else [c]

/-- serde's escaping of a whole string body. -/
def escapeStr (cs : List Char) : List Char :=
  cs.foldr (fun c acc => escapeChar c ++ acc) []

/-- One pretty-printed cache entry: `  "key": "value"`. -/
def printEntry (kv : String × String) : List Char :=
  [' ', ' ', '"'] ++ escapeStr kv.1.data ++ ['"', ':', ' ', '"']
    ++ escapeStr kv.2.data ++ ['"']

/-- The pretty-printed entries, separated by `",\n"`. -/
def printEntries : List (String × String) → List Char
  | [] => []
  | [kv] => printEntry kv
  | kv :: rest => printEntry kv ++ [',', '\n'] ++ printEntries rest

/-- Rust `serde_json::to_string_pretty` of the cache map: `"\x7b\x7d"` when empty,
otherwise the entries between `"\x7b\n"` and `"\n\x7d"`. -/
def cachePrintL (m : List (String × String)) : List Char :=
  match m with
  | [] => ['\x7b', '\x7d']
  | _ => ['\x7b', '\n'] ++ printEntries m ++ ['\n', '\x7d']

/-- Function `save_cache` (modulo the file write, whose content this returns):
serialize the cache map with `serde_json::to_string_pretty`. -/
def save_cache (m : List (String × String)) : String :=
  String.mk (cachePrintL m)

/-- Value of an ASCII hex digit. -/
def hexVal (c : Char) : Option Nat :=
  if '0' ≤ c ∧ c ≤ '9' then some (c.toNat - 48)
  else if 'a' ≤ c ∧ c ≤ 'f' then some (c.toNat - 87)
  else if 'A' ≤ c ∧ c ≤ 'F' then some (c.toNat - 55)
  else none

/-- JSON single-character escapes accepted after a backslash. -/
def unescEsc (c : Char) : Option Char :=
  if c = '"' then some '"'
  else if c = '\\' then some '\\'
  else if c = '/' then some '/'
  else if c = 'b' then some '\x08'
  else if c = 'f' then some '\x0c'
  else if c = 'n' then some '\n'
  else if c = 'r' then some '\r'
  else if c = 't' then some '\t'
  else none

/-- Parse the body of a JSON string literal (the opening quote already
consumed) up to its closing quote; returns the decoded characters and the
remaining input.  The fuel argument only serves the termination argument:
every step consumes at least one input character, and callers pass more fuel
than the input length. -/
def parseStrBodyF : Nat → List Char → Option (List Char × List Char)
  | 0, _ => none
  | fuel + 1, cs =>
    match cs with
    | [] => none
    | c :: rest =>
      if c = '"' then some ([], rest)
      else if c = '\\' then
        match rest with
        | [] => none
        | e :: rest2 =>
          if e = 'u' then
            match rest2 with
            | h1 :: h2 :: h3 :: h4 :: rest3 =>
              match hexVal h1, hexVal h2, hexVal h3, hexVal h4 with
              | some a, some b, some c3, some d =>
                (parseStrBodyF fuel rest3).map
                  (fun p => (Char.ofNat (((a * 16 + b) * 16 + c3) * 16 + d) :: p.1, p.2))
              | _, _, _, _ => none
            | _ => none
          else
            match unescEsc e with
            | some d => (parseStrBodyF fuel rest2).map (fun p => (d :: p.1, p.2))
            | none => none
      else (parseStrBodyF fuel rest).map (fun p => (c :: p.1, p.2))

/-- Wrapper around `parseStrBodyF` with always-sufficient fuel. -/
def parseStrBody (cs : List Char) : Option (List Char × List Char) :=
  parseStrBodyF (cs.length + 1) cs

/-- Drop JSON whitespace. -/
def skipWs (cs : List Char) : List Char :=
  cs.dropWhile (fun c => c = ' ' || c = '\t' || c = '\n' || c = '\r')

/-- Parse one `"key": "value"` pair (leading whitespace allowed). -/
def parseEntry (cs : List Char) : Option ((String × String) × List Char) :=
  match skipWs cs with
  | c :: r1 =>
    if c = '"' then
      match parseStrBody r1 with
      | some (k, r2) =>
        match skipWs r2 with
        | d :: r3 =>
          if d = ':' then
            match skipWs r3 with
            | e :: r4 =>
              if e = '"' then
                match parseStrBody r4 with
                | some (v, r5) => some ((String.mk k, String.mk v), r5)
                | none => none
              else none
            | [] => none
          else none
        | [] => none
      | none => none
    else none
  | [] => none

/-- After one parsed entry: a `','` and a further entry, repeatedly, until the
closing `'\x7d'`.  The fuel argument bounds the number of entries and is
always called with more fuel than the input could possibly hold. -/
def parseEntriesTail : Nat → List Char → Option (List (String × String) × List Char)
  | 0, _ => none
  | fuel + 1, cs =>
    match skipWs cs with
    | c :: r =>
      if c = ',' then
        match parseEntry r with
        | some (kv, r2) => (parseEntriesTail fuel r2).map (fun p => (kv :: p.1, p.2))
        | none => none
      else if c = '\x7d' then some ([], r)
      else none
    | [] => none

/-- Parse a whole flat string-to-string JSON object, requiring only
whitespace after it (models `serde_json::from_str` on the cache file
format). -/
def parseCacheL (cs : List Char) : Option (List (String × String)) :=
  match skipWs cs with
  | c :: r =>
    if c = '\x7b' then
      match skipWs r with
      | d :: r2 =>
        if d = '\x7d' then if (skipWs r2).isEmpty then some [] else none
        else
          match parseEntry r with
          | some (kv, r3) =>
            match parseEntriesTail (r3.length + 1) r3 with
            | some (rest, r4) =>
              if (skipWs r4).isEmpty then some (kv :: rest) else none
            | none => none
          | none => none
      | [] => none
    else none
  | [] => none

/-- Function `load_cache`: the cache-file content (`none` when the file is missing or
unreadable) parsed as a string-to-string map, with the empty map as the
fallback for a missing or unparsable file
(`read_to_string(..).ok().and_then(|s| from_str(&s).ok()).unwrap_or_default()`). -/
def load_cache (file : Option String) : List (String × String) :=
  match file with
  | none => []
  | some s => (parseCacheL s.data).getD []

example : load_cache (some (save_cache [])) = [] := by decide
example : load_cache (some (save_cache [("a", "b")])) = [("a", "b")] := by decide
example :
    load_cache (some (save_cache [("error: x", "译\n文 \"q\""), ("k\x01", "v\\w")]))
      = [("error: x", "译\n文 \"q\""), ("k\x01", "v\\w")] := by decide
example : load_cache (some "not json") = [] := by decide
example : load_cache none = [] := by decide

theorem hexVal_hexDigChar (n : Nat) (h : n < 16) : hexVal (hexDigChar n) = some n := by
  interval_cases n <;> decide

theorem parseStrBodyF_succ (fuel : Nat) (cs : List Char) :
    parseStrBodyF (fuel + 1) cs
      = (match cs with
         | [] => none
         | c :: rest =>
           if c = '"' then some ([], rest)
           else if c = '\\' then
             match rest with
             | [] => none
             | e :: rest2 =>
               if e = 'u' then
                 match rest2 with
                 | h1 :: h2 :: h3 :: h4 :: rest3 =>
                   match hexVal h1, hexVal h2, hexVal h3, hexVal h4 with
                   | some a, some b, some c3, some d =>
                     (parseStrBodyF fuel rest3).map
                       (fun p =>
                         (Char.ofNat (((a * 16 + b) * 16 + c3) * 16 + d) :: p.1, p.2))
                   | _, _, _, _ => none
                 | _ => none
               else
                 match unescEsc e with
                 | some d => (parseStrBodyF fuel rest2).map (fun p => (d :: p.1, p.2))
                 | none => none
           else (parseStrBodyF fuel rest).map (fun p => (c :: p.1, p.2))) := rfl

/-- Parsing undoes the escaping of a single character, consuming one unit of
fuel. -/
theorem parseStrBodyF_escapeChar (c : Char) (tail : List Char) (fuel : Nat) :
    parseStrBodyF (fuel + 1) (escapeChar c ++ tail)
      = (parseStrBodyF fuel tail).map (fun p => (c :: p.1, p.2)) := by
  unfold escapeChar
  split_ifs with h1 h2 h3 h4 h5 h6 h7 h8
  · subst h1; simp +decide [parseStrBodyF_succ, unescEsc]
  · subst h2; simp +decide [parseStrBodyF_succ, unescEsc]
  · subst h3; simp +decide [parseStrBodyF_succ, unescEsc]
  · subst h4; simp +decide [parseStrBodyF_succ, unescEsc]
  · subst h5; simp +decide [parseStrBodyF_succ, unescEsc]
  · subst h6; simp +decide [parseStrBodyF_succ, unescEsc]
  · subst h7; simp +decide [parseStrBodyF_succ, unescEsc]
  · have e0 : hexVal '0' = some 0 := by decide
    have e1 : hexVal (hexDigChar (c.toNat / 16)) = some (c.toNat / 16) :=
      hexVal_hexDigChar _ (by omega)
    have e2 : hexVal (hexDigChar (c.toNat % 16)) = some (c.toNat % 16) :=
      hexVal_hexDigChar _ (by omega)
    have hval : c.toNat / 16 * 16 + c.toNat % 16 = c.toNat := by omega
    simp +decide [parseStrBodyF_succ, e0, e1, e2, hval, Char.ofNat_toNat]
  · simp [parseStrBodyF_succ, h1, h2]

/-- Each escaped character is at least one character long. -/
theorem length_escapeChar_pos (c : Char) : 1 ≤ (escapeChar c).length := by
  unfold escapeChar
  split_ifs <;> simp

theorem length_le_length_escapeStr (cs : List Char) :
    cs.length ≤ (escapeStr cs).length := by
  induction cs with
  | nil => simp [escapeStr]
  | cons c cs' ih =>
    have hstep : escapeStr (c :: cs') = escapeChar c ++ escapeStr cs' := rfl
    have := length_escapeChar_pos c
    simp only [hstep, List.length_append, List.length_cons]
    omega

/-- Parsing undoes the escaping of a whole string body, given enough fuel. -/
theorem parseStrBodyF_escape (cs : List Char) :
    ∀ (tail : List Char) (fuel : Nat), cs.length < fuel →
      parseStrBodyF fuel (escapeStr cs ++ '"' :: tail) = some (cs, tail) := by
  induction cs with
  | nil =>
    intro tail fuel h
    match fuel, h with
    | f + 1, _ => simp +decide [escapeStr, parseStrBodyF_succ]
  | cons c cs' ih =>
    intro tail fuel h
    match fuel, h with
    | f + 1, h =>
      have hfold : escapeStr (c :: cs') = escapeChar c ++ escapeStr cs' := rfl
      rw [hfold, List.append_assoc, parseStrBodyF_escapeChar,
        ih tail f (by simpa using Nat.lt_of_succ_lt_succ h)]
      rfl

/-- Parsing undoes the escaping of a whole string body. -/
theorem parseStrBody_escape (cs tail : List Char) :
    parseStrBody (escapeStr cs ++ '"' :: tail) = some (cs, tail) := by
  have hlen := length_le_length_escapeStr cs
  refine parseStrBodyF_escape cs tail _ ?_
  simp only [List.length_append, List.length_cons]
  omega

theorem String.mk_data (s : String) : String.mk s.data = s := rfl

theorem skipWs_nil : skipWs [] = [] := rfl

theorem skipWs_space (cs : List Char) : skipWs (' ' :: cs) = skipWs cs := rfl

theorem skipWs_newline (cs : List Char) : skipWs ('\n' :: cs) = skipWs cs := rfl

theorem skipWs_quote (cs : List Char) : skipWs ('"' :: cs) = '"' :: cs := rfl

theorem skipWs_colon (cs : List Char) : skipWs (':' :: cs) = ':' :: cs := rfl

theorem skipWs_comma (cs : List Char) : skipWs (',' :: cs) = ',' :: cs := rfl

theorem skipWs_lbrace (cs : List Char) : skipWs ('\x7b' :: cs) = '\x7b' :: cs := rfl

theorem skipWs_rbrace (cs : List Char) : skipWs ('\x7d' :: cs) = '\x7d' :: cs := rfl

/-- Parsing one pretty-printed entry recovers exactly the entry. -/
theorem parseEntry_print (kv : String × String) (tail : List Char) :
    parseEntry (printEntry kv ++ tail) = some (kv, tail) := by
  unfold parseEntry printEntry
  simp only [List.cons_append, List.nil_append, List.append_assoc]
  simp +decide [skipWs_space, skipWs_quote, skipWs_colon, parseStrBody_escape,
    String.mk_data]

/-- A leading newline is skipped by `parseEntry`. -/
theorem parseEntry_newline (cs : List Char) : parseEntry ('\n' :: cs) = parseEntry cs := by
  unfold parseEntry
  rw [skipWs_newline]

/-- The printed text that follows the first entry of a non-empty map:
`",\n<entry>"` for every further entry, then the closing `"\n\x7d"`. -/
def printTailSep : List (String × String) → List Char
  | [] => ['\n', '\x7d']
  | kv :: rest => ',' :: '\n' :: (printEntry kv ++ printTailSep rest)

theorem printEntries_sep (kv : String × String) (rest : List (String × String)) :
    printEntries (kv :: rest) ++ ['\n', '\x7d'] = printEntry kv ++ printTailSep rest := by
  induction rest generalizing kv with
  | nil => simp [printEntries, printTailSep]
  | cons r0 rr ih =>
    calc printEntries (kv :: r0 :: rr) ++ ['\n', '\x7d']
        = printEntry kv ++ (',' :: '\n' :: (printEntries (r0 :: rr) ++ ['\n', '\x7d'])) := by
          simp [printEntries, List.append_assoc]
      _ = printEntry kv ++ printTailSep (r0 :: rr) := by
          rw [ih r0]
          rfl

theorem length_printTailSep (rest : List (String × String)) :
    rest.length < (printTailSep rest).length := by
  induction rest with
  | nil => simp [printTailSep]
  | cons r0 rr ih =>
    simp only [printTailSep, List.length_cons, List.length_append]
    omega

/-- The entry-list loop recovers the remaining entries from the printed
tail, given enough fuel. -/
theorem parseEntriesTail_print (rest : List (String × String)) :
    ∀ fuel : Nat, rest.length < fuel →
      parseEntriesTail fuel (printTailSep rest) = some (rest, []) := by
  induction rest with
  | nil =>
    intro fuel h
    match fuel, h with
    | f + 1, _ =>
      show parseEntriesTail (f + 1) ['\n', '\x7d'] = some ([], [])
      simp +decide [parseEntriesTail, skipWs_newline, skipWs_rbrace]
  | cons r0 rr ih =>
    intro fuel h
    match fuel, h with
    | f + 1, h =>
      have hr : rr.length < f := by simpa using Nat.lt_of_succ_lt_succ h
      show parseEntriesTail (f + 1)
          (',' :: '\n' :: (printEntry r0 ++ printTailSep rr)) = some (r0 :: rr, [])
      simp +decide [parseEntriesTail, skipWs_comma, parseEntry_newline,
        parseEntry_print, ih f hr]

theorem skipWs_printEntry (kv : String × String) (X : List Char) :
    skipWs (printEntry kv ++ X)
      = '"' :: (escapeStr kv.1.data
          ++ ('"' :: ':' :: ' ' :: '"' :: (escapeStr kv.2.data ++ '"' :: X))) := by
  unfold printEntry
  simp [List.cons_append, List.nil_append, List.append_assoc, skipWs_space, skipWs_quote]

/-- Claim C6: serializing any cache map with `save_cache` and loading the
produced file content back with `load_cache` yields the original map (entry
for entry, in particular equal as a key-value mapping). -/
theorem C6_save_load_roundtrip :
    ∀ m : List (String × String), load_cache (some (save_cache m)) = m := by
  intro m
  cases m with
  | nil => rfl
  | cons kv rest =>
    have hform : cachePrintL (kv :: rest)
        = '\x7b' :: '\n' :: (printEntry kv ++ printTailSep rest) := by
      show '\x7b' :: '\n' :: (printEntries (kv :: rest) ++ ['\n', '\x7d'])
          = '\x7b' :: '\n' :: (printEntry kv ++ printTailSep rest)
      rw [printEntries_sep]
    have hdata : (save_cache (kv :: rest)).data = cachePrintL (kv :: rest) := rfl
    have htail := parseEntriesTail_print rest ((printTailSep rest).length + 1)
      (Nat.lt_succ_of_lt (length_printTailSep rest))
    show (parseCacheL (save_cache (kv :: rest)).data).getD [] = kv :: rest
    rw [hdata, hform]
    unfold parseCacheL
    simp +decide [skipWs_lbrace, skipWs_newline, skipWs_printEntry,
      parseEntry_newline, parseEntry_print, htail, skipWs_nil]

/-- Claim C7: `load_cache` applied to a missing cache file, or to file content
that does not parse as a string-to-string JSON object, returns the empty map
instead of an error. -/
theorem C7_load_cache_missing_or_bad :
    load_cache none = []
      ∧ ∀ s : String, parseCacheL s.data = none → load_cache (some s) = [] :=
  ⟨rfl, fun _ h => by simp [load_cache, h]⟩

theorem C7_load_cache_missing_or_bad_witness :
    load_cache none = [] ∧ load_cache (some "not json") = [] :=
  ⟨C7_load_cache_missing_or_bad.1,
   C7_load_cache_missing_or_bad.2 "not json" (by decide)⟩

/-!  The line-processing pipeline (`src/main.rs` lines 196–236), with its
effects made explicit.  `Config` is the configuration struct (line 53;
`temperature: f32` is modelled as a rational — nothing below depends on it).
`Env` packages the two external dependencies of a `process_line` call: the
parsed configuration file (`get_config()` unwraps both the read and the
parse, so `none` models the panic case) and the LLM endpoint as a function
from the prompt to `query_llm`'s result.  `ProcState` carries the shared
cache map and the cache-file content.  `process_line` returns `none` when the
Rust code would panic, and otherwise the printed output line, the new state,
and how many external dispatches (`limiter.wait()` + `query_llm`) were
made. -/

structure Config where
  version : Option String
  language : Option String
  api_url : Option String
  api_key : Option String
  rate_limit : Option Nat
  model : Option String
  temperature : Option ℚ
  request_body_template : Option String
  response_path : Option String

structure ProcState where
  store : List (String × String)
  file : Option String
deriving DecidableEq

structure Env where
  cfg : Option Config
  llm : String → Option String

/-- States of the ANSI-escape stripper (`strip_ansi_escapes::strip`): plain
text, after `ESC`, inside a CSI sequence (dropped until a final byte in
`0x40`–`0x7e`), inside an OSC sequence (dropped until `BEL` or `ESC \`). -/
inductive AnsiMode where
  | text
  | esc
  | csi
  | osc
  | oscEsc

def stripAnsiGo : AnsiMode → List Char → List Char
  | _, [] => []
  | .text, c :: rest =>
    if c = '\x1b' then stripAnsiGo .esc rest else c :: stripAnsiGo .text rest
  | .esc, c :: rest =>
    if c = '[' then stripAnsiGo .csi rest
    else if c = ']' then stripAnsiGo .osc rest
    else stripAnsiGo .text rest
  | .csi, c :: rest =>
    if 64 ≤ c.toNat ∧ c.toNat ≤ 126 then stripAnsiGo .text rest
    else stripAnsiGo .csi rest
  | .osc, c :: rest =>
    if c = '\x07' then stripAnsiGo .text rest
    else if c = '\x1b' then stripAnsiGo .oscEsc rest
    else stripAnsiGo .osc rest
  | .oscEsc, c :: rest =>
    if c = '\\' then stripAnsiGo .text rest else stripAnsiGo .osc rest

/-- Rust `String::from_utf8_lossy(&strip(raw.as_bytes())).to_string()`: the raw
line with ANSI escape sequences removed. -/
def stripAnsi (s : String) : String :=
  String.mk (stripAnsiGo .text s.data)

/-- Rust `HashMap::get` on the association-list embedding of the cache map. -/
def lookupA : List (String × String) → String → Option String
  | [], _ => none
  | kv :: rest, k => if kv.1 = k then some kv.2 else lookupA rest k

/-- Rust `HashMap::insert` on the association-list embedding of the cache map. -/
def insertA : List (String × String) → String → String → List (String × String)
  | [], k, v => [(k, v)]
  | kv :: rest, k, v => if kv.1 = k then (k, v) :: rest else kv :: insertA rest k v

/-- Rust `str::trim_end()`. -/
def trimEndL (cs : List Char) : List Char :=
  (cs.reverse.dropWhile Char.isWhitespace).reverse

/-- Rust `str::trim_end()` on strings. -/
def rustTrimEnd (s : String) : String :=
  String.mk (trimEndL s.data)

/-- Rust `str::replace("```", "")`: drop every non-overlapping
occurrence of a triple backtick, scanning left to right. -/
def removeTicks : List Char → List Char
  | '`' :: '`' :: '`' :: rest => removeTicks rest
  | c :: rest => c :: removeTicks rest
  | [] => []

/-- The prompt of `process_line`: "Translate the following English compiler
diagnostic message into {language} as plain text: {cleaned}" where `cleaned`
is `key.replace('\n', " ")` with triple backticks removed and the result
trimmed. -/
def buildPrompt (language key : String) : String :=
  "Translate the following English compiler diagnostic message into " ++ language
    ++ " as plain text: "
    ++ String.mk (trimL (removeTicks (key.data.map (fun c => if c = '\n' then ' ' else c))))

/-- The cache-or-compute block of `process_line` (the `let zh = { … }` braces,
lines 205–231): look the key up; on a miss read the configuration
(`get_config()` — `none` panics), build the prompt, wait on the limiter, call
the LLM; a genuine translation is trimmed of trailing whitespace, inserted,
and the whole map is saved to the cache file; the sentinel answer or a failed
call leaves the state untouched. -/
def resolve_translation (key : String) (env : Env) (st : ProcState) :
    Option (String × ProcState × Nat) :=
  match lookupA st.store key with
  | some val => some (val, st, 0)
  | none =>
    match env.cfg with
    | none => none
    | some cfg =>
      let language := cfg.language.getD "zh-CN"
      let prompt := buildPrompt language key
      match env.llm prompt with
      | some v =>
        if v ≠ "Translation failed." then
          let trimmed := rustTrimEnd v
          let store2 := insertA st.store key trimmed
          some (trimmed, ⟨store2, some (save_cache store2)⟩, 1)
        else some (rustTrimEnd v, st, 1)
      | none => some ("Translation failed.", st, 1)

/-- Function `process_line`: strip escapes, classify; on a qualifying line resolve the
trimmed clean text through the cache and print `"<raw> (<zh>)"`, otherwise
print the raw line unchanged.  `none` models a panic inside the resolution. -/
def process_line (raw : String) (env : Env) (st : ProcState) :
    Option (String × ProcState × Nat) :=
  let clean := stripAnsi raw
  if should_translate clean then
    match resolve_translation (String.mk (trimL clean.data)) env st with
    | some r => some (raw ++ " (" ++ r.1 ++ ")", r.2.1, r.2.2)
    | none => none
  else some (raw, st, 0)

example : stripAnsi "\x1b[31merror\x1b[0m: x" = "error: x" := by decide
example : stripAnsi "\x1b]0;title\x07error" = "error" := by decide

theorem resolve_hit (key : String) (env : Env) (st : ProcState) (v : String)
    (h : lookupA st.store key = some v) :
    resolve_translation key env st = some (v, st, 0) := by
  unfold resolve_translation
  simp [h]

theorem resolve_miss_noconfig (key : String) (env : Env) (st : ProcState)
    (hm : lookupA st.store key = none) (hc : env.cfg = none) :
    resolve_translation key env st = none := by
  unfold resolve_translation
  simp [hm, hc]

theorem resolve_miss_fail (key : String) (env : Env) (st : ProcState) (c : Config)
    (hm : lookupA st.store key = none) (hc : env.cfg = some c)
    (hf : ∀ p, env.llm p = none) :
    resolve_translation key env st = some ("Translation failed.", st, 1) := by
  unfold resolve_translation
  simp [hm, hc, hf]

theorem resolve_miss_ok (key : String) (env : Env) (st : ProcState) (c : Config)
    (v : String) (hm : lookupA st.store key = none) (hc : env.cfg = some c)
    (hv : ∀ p, env.llm p = some v) (hg : v ≠ "Translation failed.") :
    resolve_translation key env st
      = some (rustTrimEnd v,
          ⟨insertA st.store key (rustTrimEnd v),
           some (save_cache (insertA st.store key (rustTrimEnd v)))⟩, 1) := by
  unfold resolve_translation
  simp [hm, hc, hv, hg]

theorem process_line_translate (raw : String) (env : Env) (st : ProcState)
    (h : should_translate (stripAnsi raw) = true) :
    process_line raw env st
      = (match resolve_translation (String.mk (trimL (stripAnsi raw).data)) env st with
         | some r => some (raw ++ " (" ++ r.1 ++ ")", r.2.1, r.2.2)
         | none => none) := by
  unfold process_line
  simp [h]

theorem dropWhile_idem (p : Char → Bool) (l : List Char) :
    List.dropWhile p (List.dropWhile p l) = List.dropWhile p l := by
  induction l with
  | nil => rfl
  | cons a l' ih =>
    by_cases ha : p a = true
    · simp [List.dropWhile_cons, ha, ih]
    · simp [List.dropWhile_cons, ha]

theorem trimEndL_idem (cs : List Char) : trimEndL (trimEndL cs) = trimEndL cs := by
  unfold trimEndL
  rw [List.reverse_reverse, dropWhile_idem]

/-- Claim C2: on a cache hit, `process_line` emits the stored value verbatim,
performs zero external dispatches, and leaves both the cache map and the
cache file exactly as they were. -/
theorem C2_cache_hit_no_side_effects (raw : String) (env : Env) (st : ProcState)
    (v : String)
    (hcls : should_translate (stripAnsi raw) = true)
    (hhit : lookupA st.store (String.mk (trimL (stripAnsi raw).data)) = some v) :
    process_line raw env st = some (raw ++ " (" ++ v ++ ")", st, 0) := by
  rw [process_line_translate raw env st hcls, resolve_hit _ env _ _ hhit]

/-- Claim C1: when the external call fails on a cache miss, `process_line`
emits the failure sentinel, stores nothing, rewrites no file, counts one
external dispatch — and processing the same line again from the resulting
state performs the external call again (same sentinel, same single
dispatch). -/
theorem C1_failed_translation_not_cached (raw : String) (env : Env) (st : ProcState)
    (c : Config)
    (hcls : should_translate (stripAnsi raw) = true)
    (hmiss : lookupA st.store (String.mk (trimL (stripAnsi raw).data)) = none)
    (hcfg : env.cfg = some c)
    (hfail : ∀ p, env.llm p = none) :
    process_line raw env st = some (raw ++ " (" ++ "Translation failed." ++ ")", st, 1)
      ∧ (process_line raw env st).bind (fun r => process_line raw env r.2.1)
          = some (raw ++ " (" ++ "Translation failed." ++ ")", st, 1) := by
  have h1 : process_line raw env st
      = some (raw ++ " (" ++ "Translation failed." ++ ")", st, 1) := by
    rw [process_line_translate raw env st hcls,
      resolve_miss_fail _ env _ c hmiss hcfg hfail]
  refine ⟨h1, ?_⟩
  rw [h1]
  exact h1

/-- Claim C10: on a cache miss, `process_line` reads the configuration file
afresh and unwraps both the read and the parse, so a missing or unparsable
configuration at that moment panics the worker (`none`) instead of producing
the per-line sentinel. -/
theorem C10_missing_config_panics (raw : String) (env : Env) (st : ProcState)
    (hcls : should_translate (stripAnsi raw) = true)
    (hmiss : lookupA st.store (String.mk (trimL (stripAnsi raw).data)) = none)
    (hcfg : env.cfg = none) :
    process_line raw env st = none := by
  rw [process_line_translate raw env st hcls,
    resolve_miss_noconfig _ env _ hmiss hcfg]

/-- Claim C8 (amended): the value stored on a successful cache-miss
resolution is exactly the API result trimmed of **trailing** whitespace
(`trim_end`); leading whitespace and internal newlines are preserved (the
newline collapsing applies to the prompt, not to the stored value).  The
second conjunct records that the stored value indeed carries no trailing
whitespace. -/
theorem C8_stored_value_trailing_trimmed (raw : String) (env : Env) (st : ProcState)
    (c : Config) (v : String)
    (hcls : should_translate (stripAnsi raw) = true)
    (hmiss : lookupA st.store (String.mk (trimL (stripAnsi raw).data)) = none)
    (hcfg : env.cfg = some c)
    (hllm : ∀ p, env.llm p = some v)
    (hgen : v ≠ "Translation failed.") :
    process_line raw env st
      = some (raw ++ " (" ++ rustTrimEnd v ++ ")",
          ⟨insertA st.store (String.mk (trimL (stripAnsi raw).data)) (rustTrimEnd v),
           some (save_cache (insertA st.store (String.mk (trimL (stripAnsi raw).data))
              (rustTrimEnd v)))⟩, 1)
      ∧ trimEndL (rustTrimEnd v).data = (rustTrimEnd v).data := by
  constructor
  · rw [process_line_translate raw env st hcls,
      resolve_miss_ok _ env _ c v hmiss hcfg hllm hgen]
  · exact trimEndL_idem v.data

/-- Claim C9: the cache key is always the trimmed, escape-stripped text, so
two raw lines whose stripped, trimmed forms coincide and which both qualify
for translation resolve identically: same translation, same resulting state,
same number of external dispatches (or both panic). -/
theorem C9_same_key_same_resolution (r1 r2 : String) (env : Env) (st : ProcState)
    (hkey : trimL (stripAnsi r1).data = trimL (stripAnsi r2).data)
    (h1 : should_translate (stripAnsi r1) = true)
    (h2 : should_translate (stripAnsi r2) = true) :
    (process_line r1 env st = none ∧ process_line r2 env st = none)
      ∨ ∃ z st2 n, process_line r1 env st = some (r1 ++ " (" ++ z ++ ")", st2, n)
          ∧ process_line r2 env st = some (r2 ++ " (" ++ z ++ ")", st2, n) := by
  have hk : String.mk (trimL (stripAnsi r1).data) = String.mk (trimL (stripAnsi r2).data) :=
    congrArg String.mk hkey
  rw [process_line_translate r1 env st h1, process_line_translate r2 env st h2, hk]
  cases h : resolve_translation (String.mk (trimL (stripAnsi r2).data)) env st with
  | none => exact Or.inl ⟨rfl, rfl⟩
  | some r => exact Or.inr ⟨r.1, r.2.1, r.2.2, rfl, rfl⟩

/-- A concrete configuration used by the witnesses below. -/
def cfg0 : Config :=
  ⟨some "1.0", some "zh-CN", some "https://api.example/v1", some "k", some 8,
   some "gpt-4o-mini", some (1 / 5 : ℚ), none, some "choices.0.message.content"⟩

def emptySt : ProcState := ⟨[], none⟩

def hitSt : ProcState := ⟨[("error: x", "错误")], none⟩

def envFail : Env := ⟨some cfg0, fun _ => none⟩

def envNoCfg : Env := ⟨none, fun _ => none⟩

def envRaw : Env := ⟨some cfg0, fun _ => some " hola\nmundo "⟩

theorem C1_failed_translation_not_cached_witness :
    process_line "error: x" envFail emptySt
        = some ("error: x" ++ " (" ++ "Translation failed." ++ ")", emptySt, 1)
      ∧ (process_line "error: x" envFail emptySt).bind
            (fun r => process_line "error: x" envFail r.2.1)
          = some ("error: x" ++ " (" ++ "Translation failed." ++ ")", emptySt, 1) :=
  C1_failed_translation_not_cached "error: x" envFail emptySt cfg0 (by decide) (by decide)
    rfl (fun _ => rfl)

theorem C2_cache_hit_no_side_effects_witness :
    process_line "error: x" envNoCfg hitSt
      = some ("error: x" ++ " (" ++ "错误" ++ ")", hitSt, 0) :=
  C2_cache_hit_no_side_effects "error: x" envNoCfg hitSt "错误" (by decide) (by decide)

theorem C10_missing_config_panics_witness :
    process_line "error: x" envNoCfg emptySt = none :=
  C10_missing_config_panics "error: x" envNoCfg emptySt (by decide) (by decide) rfl

theorem C8_stored_value_trailing_trimmed_witness :
    process_line "error: x" envRaw emptySt
        = some ("error: x" ++ " (" ++ rustTrimEnd " hola\nmundo " ++ ")",
            ⟨insertA emptySt.store (String.mk (trimL (stripAnsi "error: x").data))
               (rustTrimEnd " hola\nmundo "),
             some (save_cache (insertA emptySt.store
                (String.mk (trimL (stripAnsi "error: x").data))
                (rustTrimEnd " hola\nmundo ")))⟩, 1)
      ∧ trimEndL (rustTrimEnd " hola\nmundo ").data = (rustTrimEnd " hola\nmundo ").data :=
  C8_stored_value_trailing_trimmed "error: x" envRaw emptySt cfg0 " hola\nmundo "
    (by decide) (by decide) rfl (fun _ => rfl) (by decide)

/-- Claim C8 counterexample: with the API answering `" hola\nmundo "`, the
value actually stored for the key `"error: x"` is `" hola\nmundo"` — its
trailing space is removed but its leading space survives and its internal
newline is not collapsed to a space, so the stored value is neither trimmed
nor newline-collapsed as the claim states. -/
theorem C8_counterexample :
    (process_line "error: x" envRaw emptySt).map (fun r => lookupA r.2.1.store "error: x")
        = some (some " hola\nmundo")
      ∧ " hola\nmundo" ≠ String.mk (trimL " hola\nmundo".data)
      ∧ '\n' ∈ " hola\nmundo".data :=
  ⟨by decide, by decide, by decide⟩

theorem C9_same_key_same_resolution_witness :
    (process_line "\x1b[31merror: x\x1b[0m" envNoCfg hitSt = none
        ∧ process_line "  error: x" envNoCfg hitSt = none)
      ∨ ∃ z st2 n,
          process_line "\x1b[31merror: x\x1b[0m" envNoCfg hitSt
              = some ("\x1b[31merror: x\x1b[0m" ++ " (" ++ z ++ ")", st2, n)
            ∧ process_line "  error: x" envNoCfg hitSt
              = some ("  error: x" ++ " (" ++ z ++ ")", st2, n) :=
  C9_same_key_same_resolution "\x1b[31merror: x\x1b[0m" "  error: x" envNoCfg hitSt
    (by decide) (by decide) (by decide)

/-!  The rate limiter (`src/main.rs` lines 66–89, 151–152).  Time is modelled
by exact rationals (seconds).  `wait()` holds the mutex, so concurrent calls
from the two stream workers are serialized into one global sequence of
dispatches; one completed call is a `WaitStep`: it observes the clock at some
`tNow` no earlier than the stored `last` instant (monotonic clock), sleeps
`interval - elapsed` when `elapsed = tNow - last < interval` (after which the
clock reads at least `tNow + (interval - elapsed)`), and records a fresh
clock reading `tRec` as the new `last`.  A run of the limiter is a list of
successive recorded timestamps linked by `WaitStep`. -/

/-- Rust `RateLimiter::new(max_per_sec)`: `safe_max` floors the rate at 1 and the
interval is `1 / safe_max` seconds. -/
def RateLimiter.interval (max_per_sec : Nat) : ℚ :=
  1 / (if max_per_sec < 1 then 1 else max_per_sec)

/-- Expression `cfg.rate_limit.unwrap_or(8).max(1)` from `main` (line 151). -/
def main_rate_limit (r : Option Nat) : Nat :=
  max (r.getD 8) 1

/-- One completed `wait()` call, taking the stored `last` timestamp from `s`
to `s'`. -/
def WaitStep (interval : ℚ) (s s' : ℚ) : Prop :=
  ∃ tNow tRec : ℚ,
    s ≤ tNow
      ∧ (if tNow - s < interval then tNow + (interval - (tNow - s)) else tNow) ≤ tRec
      ∧ s' = tRec

theorem WaitStep.gap (interval s s' : ℚ) (h : WaitStep interval s s') :
    interval ≤ s' - s := by
  obtain ⟨tNow, tRec, hmono, hsleep, hrec⟩ := h
  subst hrec
  split_ifs at hsleep with hcase
  · linarith
  · have := not_lt.mp hcase
    linarith

/-- Claim C4: the effective interval is `1 / max(configured_rate, 1)` seconds
with the rate defaulting to 8 when unconfigured (in particular 1/8 s by
default), and along any serialized sequence of `wait()` calls — from either
stream worker — consecutive recorded dispatch timestamps are at least the
interval apart. -/
theorem C4_rate_limiter_spacing :
    (∀ r : Option Nat,
        RateLimiter.interval (main_rate_limit r) = 1 / (max (r.getD 8) 1 : ℚ))
      ∧ RateLimiter.interval (main_rate_limit none) = 1 / 8
      ∧ ∀ (interval : ℚ) (l : List ℚ), List.Chain' (WaitStep interval) l →
          ∀ (i : Nat) (h : i + 1 < l.length),
            interval ≤ l.get ⟨i + 1, h⟩ - l.get ⟨i, Nat.lt_of_succ_lt h⟩ := by
  refine ⟨?_, by norm_num [RateLimiter.interval, main_rate_limit], ?_⟩
  · intro r
    unfold RateLimiter.interval main_rate_limit
    rw [if_neg (by omega)]
    norm_num
  · intro interval l hl i h
    exact WaitStep.gap interval _ _ (List.chain'_iff_get.mp hl i (by omega))

/-- A concrete limiter run: the initial `last` is `now - interval` (line 77,
with the start of the run as time zero), then dispatches at times 0 and 1/4. -/
def wTrace : List ℚ := [-(1 / 8), 0, 1 / 4]

theorem C4_rate_limiter_spacing_witness :
    List.Chain' (WaitStep (1 / 8 : ℚ)) wTrace
      ∧ (1 / 8 : ℚ) ≤ wTrace.get ⟨1, by decide⟩ - wTrace.get ⟨0, by decide⟩ := by
  have hch : List.Chain' (WaitStep (1 / 8 : ℚ)) wTrace := by
    refine List.chain'_cons.mpr ⟨?_, List.chain'_cons.mpr ⟨?_, List.chain'_singleton _⟩⟩
    · refine ⟨0, 0, by norm_num, ?_, rfl⟩
      rw [if_neg (by norm_num)]
    · refine ⟨1 / 8, 1 / 4, by norm_num, ?_, rfl⟩
      rw [if_neg (by norm_num)]
      norm_num
  exact ⟨hch, C4_rate_limiter_spacing.2.2 (1 / 8) wTrace hch 0 (by decide)⟩
